import Mathlib

/-!
Shallow embedding of the market-position analysis core of
`src/iflow_request.py`: the position analyzer `get_market_position`
(lines 165-174), the trailing-window evaluator inside `check_market`
(lines 212-243), and the seasonal drop detector `check_seasonal`
(lines 261-278).

Market values (Python floats holding decimal index readings) are
modelled as rationals; calendar dates (Python `datetime` at day
granularity, as produced by `strptime(s, "%Y-%m-%d")`) are modelled as
explicit year/month/day records with the proleptic Gregorian rules
that `datetime` uses.  `timedelta(days = n)` arithmetic is day
stepping on that calendar; comparison of `datetime` objects is
lexicographic on (year, month, day).
-/

/- ### Calendar dates -/

/-- A calendar date at day granularity, as a Python `datetime` produced by
`strptime(s, "%Y-%m-%d")` (the time-of-day part is always midnight and
is therefore omitted). -/
structure Date where
  year : Int
  month : Nat
  day : Nat
deriving DecidableEq

/-- Gregorian leap-year rule, as used by Python's `datetime`. -/
def isLeap (y : Int) : Bool := (y % 4 == 0 && y % 100 != 0) || y % 400 == 0

/-- Number of days in a month of a given year (Gregorian). -/
def daysInMonth (y : Int) (m : Nat) : Nat :=
  if m = 2 then (if isLeap y then 29 else 28)
  else if m = 4 ∨ m = 6 ∨ m = 9 ∨ m = 11 then 30
  else 31

/-- The dates representable by Python's `datetime`: year in
`MINYEAR = 1 .. MAXYEAR = 9999`, month in `1..12`, day in
`1..daysInMonth`. -/
def Date.Valid (d : Date) : Prop :=
  1 ≤ d.year ∧ d.year ≤ 9999 ∧ 1 ≤ d.month ∧ d.month ≤ 12 ∧
    1 ≤ d.day ∧ d.day ≤ daysInMonth d.year d.month

instance Date.decValid (d : Date) : Decidable d.Valid :=
  inferInstanceAs (Decidable (_ ∧ _))

/-- Python `d.replace(year = y)`: the date with the year swapped, or
`none` when the result is not a valid `datetime` date (`ValueError`,
e.g. Feb 29 of a non-leap year, or a year outside `1..9999`). -/
def Date.replaceYear (d : Date) (y : Int) : Option Date :=
  if (Date.mk y d.month d.day).Valid then some (Date.mk y d.month d.day) else none

/-- The day after `d` (`d + timedelta(days = 1)`), on the proleptic
Gregorian calendar. -/
def Date.nextDay (d : Date) : Date :=
  if d.day < daysInMonth d.year d.month then ⟨d.year, d.month, d.day + 1⟩
  else if d.month < 12 then ⟨d.year, d.month + 1, 1⟩
  else ⟨d.year + 1, 1, 1⟩

/-- Python `d + timedelta(days = n)`. -/
def Date.addDays (n : Nat) (d : Date) : Date := Date.nextDay^[n] d

/-- The day before `d` (`d - timedelta(days = 1)`). -/
def Date.prevDay (d : Date) : Date :=
  if 1 < d.day then ⟨d.year, d.month, d.day - 1⟩
  else if 1 < d.month then ⟨d.year, d.month - 1, daysInMonth d.year (d.month - 1)⟩
  else ⟨d.year - 1, 12, 31⟩

/-- Python `d - timedelta(days = n)`. -/
def Date.subDays (n : Nat) (d : Date) : Date := Date.prevDay^[n] d

/-- Comparison of `datetime` objects (with equal midnight times):
lexicographic on (year, month, day). -/
def Date.lt (a b : Date) : Prop :=
  a.year < b.year ∨
    (a.year = b.year ∧ (a.month < b.month ∨ (a.month = b.month ∧ a.day < b.day)))

instance : LT Date := ⟨Date.lt⟩

instance Date.decLt (a b : Date) : Decidable (a < b) :=
  if h : a.year < b.year ∨
      (a.year = b.year ∧ (a.month < b.month ∨ (a.month = b.month ∧ a.day < b.day)))
  then .isTrue h else .isFalse h

instance : LE Date := ⟨fun a b => a < b ∨ a = b⟩

instance Date.decLe (a b : Date) : Decidable (a ≤ b) :=
  inferInstanceAs (Decidable (a < b ∨ a = b))

theorem Date.lt_def (a b : Date) : a < b ↔
    (a.year < b.year ∨
      (a.year = b.year ∧ (a.month < b.month ∨ (a.month = b.month ∧ a.day < b.day)))) :=
  Iff.rfl

theorem Date.lt_irrefl (a : Date) : ¬ a < a := by
  rw [Date.lt_def]
  omega

theorem Date.lt_trans {a b c : Date} (hab : a < b) (hbc : b < c) : a < c := by
  rw [Date.lt_def] at hab hbc ⊢
  omega

theorem Date.le_refl (a : Date) : a ≤ a := Or.inr rfl

theorem Date.prevDay_lt (d : Date) : d.prevDay < d := by
  rw [Date.prevDay]
  split_ifs with h1 h2 <;> rw [Date.lt_def] <;> dsimp only <;> omega

theorem Date.subDays_lt (n : Nat) (hn : 0 < n) (d : Date) : Date.subDays n d < d := by
  induction n with
  | zero => omega
  | succ m ih =>
    rcases Nat.eq_zero_or_pos m with hm | hm
    · subst hm
      simpa [Date.subDays] using Date.prevDay_lt d
    · have hstep : Date.subDays (m + 1) d = (Date.subDays m d).prevDay := by
        simp [Date.subDays, Function.iterate_succ_apply']
      rw [hstep]
      exact Date.lt_trans (Date.prevDay_lt _) (ih hm)

/- ### Position analyzer: `get_market_position` (lines 165-174) -/

/-- `get_market_position(current_val, history_values)`.  Mirrors the
source line by line: empty history returns `(1, 0.0)`; otherwise
`all_values = history_values + [current_val]` is sorted ascending
(`all_values.sort()`), `rank_index = all_values.index(current_val)` is
the index of the first occurrence, `rank = rank_index + 1`,
`cheaper_count = sum(1 for v in history_values if v < current_val)`
and `quantile = cheaper_count / len(history_values)`. -/
def get_market_position (current_val : ℚ) (history_values : List ℚ) : ℕ × ℚ :=
  if history_values = [] then (1, 0)
  else
    let all_values := List.insertionSort (· ≤ ·) (history_values ++ [current_val])
    let rank_index := all_values.indexOf current_val
    let rank := rank_index + 1
    let cheaper_count := history_values.countP (fun v => decide (v < current_val))
    let quantile := (cheaper_count : ℚ) / (history_values.length : ℚ)
    (rank, quantile)

/-- State-passing rendering of `get_market_position` that additionally
returns the list the caller's `history_values` argument refers to
after the call.  In the source, `all_values = history_values +
[current_val]` builds a fresh list and the in-place `all_values.sort()`
mutates only that fresh list, so the second component is the
caller's list unchanged. -/
def get_market_position_tracked (current_val : ℚ) (history_values : List ℚ) :
    (ℕ × ℚ) × List ℚ :=
  if history_values = [] then ((1, 0), history_values)
  else
    let all_values := List.insertionSort (· ≤ ·) (history_values ++ [current_val])
    let rank_index := all_values.indexOf current_val
    let rank := rank_index + 1
    let cheaper_count := history_values.countP (fun v => decide (v < current_val))
    let quantile := (cheaper_count : ℚ) / (history_values.length : ℚ)
    ((rank, quantile), history_values)

/- ### Window evaluator: the period loop of `check_market` (lines 212-243) -/

/-- One element of the cleaned `n10_data` series: a (date, value)
observation. -/
structure Obs where
  date : Date
  value : ℚ
deriving DecidableEq

/-- The observations selected by the `hist_vals` list comprehension of
`check_market` (lines 221-225) before taking their values:
`start_dt <= date < curr_date` with
`start_dt = curr_date - timedelta(days = days)`. -/
def windowObs (n10_data : List Obs) (curr_date : Date) (days : Nat) : List Obs :=
  n10_data.filter
    (fun x => decide (Date.subDays days curr_date ≤ x.date ∧ x.date < curr_date))

/-- `hist_vals` itself: the values of the selected observations. -/
def hist_vals (n10_data : List Obs) (curr_date : Date) (days : Nat) : List ℚ :=
  (windowObs n10_data curr_date days).map Obs.value

/-- Evaluation mode of a window (`conf['mode']`). -/
inductive Mode
  | rank
  | quantile
deriving DecidableEq

/-- One entry of the `periods` table joined with its `BUY_CONDITIONS`
threshold: window length in days, mode, and target. -/
structure WindowConf where
  days : Nat
  mode : Mode
  target : ℚ

/-- The four fixed windows of `check_market` with the thresholds from
`BUY_CONDITIONS`: 7-day rank target 1, 30-day quantile 0.10, 90-day
quantile 0.15, 365-day quantile 0.20. -/
def periods : List WindowConf :=
  [⟨7, Mode.rank, 1⟩, ⟨30, Mode.quantile, 10/100⟩,
   ⟨90, Mode.quantile, 15/100⟩, ⟨365, Mode.quantile, 20/100⟩]

/-- One iteration of the period loop of `check_market` (lines 220-243).
`none` models the `continue` on empty `hist_vals`; otherwise the
result is the hit flag produced by the rank or quantile rule together
with the computed `(real_rank, real_quantile)`. -/
def evalWindow (n10_data : List Obs) (curr_date : Date) (curr_val : ℚ)
    (conf : WindowConf) : Option (Bool × ℕ × ℚ) :=
  let h := hist_vals n10_data curr_date conf.days
  if h = [] then none
  else
    let rq := get_market_position curr_val h
    let is_hit :=
      match conf.mode with
      | Mode.rank => decide ((rq.1 : ℚ) ≤ conf.target)
      | Mode.quantile => decide (rq.2 ≤ conf.target)
    some (is_hit, rq)

/-- The whole period loop: the evaluated windows in order, each with its
configuration, hit flag and position; windows with empty history
contribute nothing. -/
def evaluateWindows (n10_data : List Obs) (curr_date : Date) (curr_val : ℚ)
    (confs : List WindowConf) : List (WindowConf × Bool × ℕ × ℚ) :=
  confs.filterMap
    (fun c => (evalWindow n10_data curr_date curr_val c).map (fun r => (c, r)))

/- ### Seasonal drop detector: `check_seasonal` (lines 261-278) -/

/-- `SEASONAL_DROP_THRESHOLD = 0.02` (line 21). -/
def SEASONAL_DROP_THRESHOLD : ℚ := 2/100

/-- The dict `date_val_map` built on line 263 from `all_data`, read at a
given date key: on duplicate dates the later entry wins, as for a
Python dict comprehension.  (`strftime("%Y-%m-%d")` /
`strptime(s, "%Y-%m-%d")` put valid dates and the key strings in
bijection, so the string keys are modelled by the dates
themselves.) -/
def date_val_map (all_data : List Obs) (d : Date) : Option ℚ :=
  ((all_data.filter (fun x => decide (x.date = d))).getLast?).map Obs.value

/-- The body of the `for year_back in [1, 2, 3]` loop of `check_seasonal`
(lines 264-273): the sample appended to `drops` for one offset, or
`none` when the offset contributes nothing.  The `none` branches model,
in source order: `curr_date.replace(year = ...)` raising `ValueError`
(caught by the bare `except`); one of the two keys missing from
`date_val_map`; and `date_val_map[s_str] == 0`, where the division on
line 271 raises `ZeroDivisionError` (likewise caught by the bare
`except`). -/
def seasonalSample (all_data : List Obs) (curr_date : Date) (year_back : Nat) :
    Option ℚ :=
  match curr_date.replaceYear (curr_date.year - year_back) with
  | none => none
  | some past_start =>
    match date_val_map all_data past_start,
          date_val_map all_data (Date.addDays 7 past_start) with
    | some vs, some ve => if vs = 0 then none else some ((vs - ve) / vs)
    | _, _ => none

/-- The `drops` list collected by the loop of `check_seasonal`. -/
def seasonalDrops (all_data : List Obs) (curr_date : Date) : List ℚ :=
  ([1, 2, 3] : List Nat).filterMap (seasonalSample all_data curr_date)

/-- Lines 274-278 of `check_seasonal`: with at least one sample whose
mean exceeds `SEASONAL_DROP_THRESHOLD`, the warning (modelled by the
data interpolated into the warning string: `len(drops)` and the mean
drop `avg_drop`); otherwise `None`. -/
def seasonalVerdict (drops : List ℚ) : Option (ℕ × ℚ) :=
  if drops = [] then none
  else
    let avg_drop := drops.sum / (drops.length : ℚ)
    if SEASONAL_DROP_THRESHOLD < avg_drop then some (drops.length, avg_drop) else none

/-- `check_seasonal(all_data, curr_date)`. -/
def check_seasonal (all_data : List Obs) (curr_date : Date) : Option (ℕ × ℚ) :=
  seasonalVerdict (seasonalDrops all_data curr_date)

/- ### Spec-side definitions (for the refinement statements) -/

/-- Spec side, C1: the ascending-sorted multiset obtained from
`historyValues` together with `currentValue`. -/
def specSortedPool (currentValue : ℚ) (historyValues : List ℚ) : List ℚ :=
  List.insertionSort (· ≤ ·) (currentValue :: historyValues)

/-- Spec side, C1: the 1-based position of the first occurrence of
`currentValue` in the ascending-sorted multiset. -/
def specRank (currentValue : ℚ) (historyValues : List ℚ) : ℕ :=
  (specSortedPool currentValue historyValues).indexOf currentValue + 1

/- ### General lemmas -/

/-- In an ascending-sorted list that contains `v`, the index of the first
occurrence of `v` is the number of elements strictly below `v`. -/
theorem indexOf_sorted_eq_countLt (v : ℚ) (l : List ℚ)
    (hs : l.Sorted (· ≤ ·)) (hv : v ∈ l) :
    l.indexOf v = l.countP (fun x => decide (x < v)) := by
  induction l with
  | nil => cases hv
  | cons a t ih =>
    rw [List.sorted_cons] at hs
    by_cases hav : a = v
    · subst hav
      rw [List.indexOf_cons_self, List.countP_cons]
      have h0 : t.countP (fun x => decide (x < a)) = 0 :=
        List.countP_eq_zero.mpr (fun b hb => by
          simpa using not_lt.mpr (hs.1 b hb))
      simp [h0]
    · have hvt : v ∈ t := by
        rcases List.mem_cons.mp hv with h | h
        · exact absurd h.symm hav
        · exact h
      have hva : a < v := lt_of_le_of_ne (hs.1 v hvt) hav
      rw [List.indexOf_cons_ne _ hav, List.countP_cons, ih hs.2 hvt]
      simp [hva]

/-- Both pools `history ++ [current]` (source) and `current :: history`
(spec) hold the same number of elements strictly below `current`. -/
theorem countLt_pool_eq (v : ℚ) (h : List ℚ) :
    (h ++ [v]).countP (fun x => decide (x < v))
      = (v :: h).countP (fun x => decide (x < v)) := by
  rw [List.countP_append, List.countP_cons]
  simp

/- ### C1 -/

/-- C1: for every current value and nonempty history, the rank returned by
`get_market_position` is the 1-based position of the first occurrence of
the current value in the ascending-sorted multiset of the history values
together with the current value; in particular an all-tie history such
as `get_market_position 5 [5, 5, 5]` yields rank 1 (ties resolve to the
most favorable, lowest rank). -/
theorem rank_matches_sorted_first_occurrence :
    (∀ (v : ℚ) (h : List ℚ), h ≠ [] →
      (get_market_position v h).1 = specRank v h) ∧
    (get_market_position 5 [5, 5, 5]).1 = 1 := by
  constructor
  · intro v h hne
    have hrank : (get_market_position v h).1
        = (List.insertionSort (· ≤ ·) (h ++ [v])).indexOf v + 1 := by
      simp [get_market_position, hne]
    have hmem1 : v ∈ List.insertionSort (· ≤ ·) (h ++ [v]) :=
      (List.perm_insertionSort (· ≤ ·) (h ++ [v])).mem_iff.mpr (by simp)
    have hmem2 : v ∈ List.insertionSort (· ≤ ·) (v :: h) :=
      (List.perm_insertionSort (· ≤ ·) (v :: h)).mem_iff.mpr (by simp)
    have h1 := indexOf_sorted_eq_countLt v (List.insertionSort (· ≤ ·) (h ++ [v]))
      (List.sorted_insertionSort (· ≤ ·) (h ++ [v])) hmem1
    have h2 := indexOf_sorted_eq_countLt v (List.insertionSort (· ≤ ·) (v :: h))
      (List.sorted_insertionSort (· ≤ ·) (v :: h)) hmem2
    have h3 := (List.perm_insertionSort (· ≤ ·) (h ++ [v])).countP_eq
      (fun x => decide (x < v))
    have h4 := (List.perm_insertionSort (· ≤ ·) (v :: h)).countP_eq
      (fun x => decide (x < v))
    rw [hrank, specRank, specSortedPool, h1, h2, h3, h4, countLt_pool_eq]
  · decide

/-- C1 witness: the all-tie instance. -/
theorem rank_matches_sorted_first_occurrence_witness :
    ([(5:ℚ), 5, 5] ≠ []) ∧ (get_market_position 5 [5, 5, 5]).1 = specRank 5 [5, 5, 5] :=
  ⟨by decide, rank_matches_sorted_first_occurrence.1 5 [5, 5, 5] (by decide)⟩

/- ### C2 -/

/-- C2: for every current value and nonempty history, the quantile returned
by `get_market_position` is the number of history values strictly below
the current value divided by the history length (the denominator excludes
the current value); it is 0 as soon as no history value is strictly below,
and it is 1 exactly when the current value is strictly above every history
value. -/
theorem quantile_is_strict_cheaper_fraction :
    ∀ (v : ℚ) (h : List ℚ), h ≠ [] →
      (get_market_position v h).2
          = (h.countP (fun x => decide (x < v)) : ℚ) / (h.length : ℚ) ∧
        ((∀ x ∈ h, ¬ x < v) → (get_market_position v h).2 = 0) ∧
        ((get_market_position v h).2 = 1 ↔ ∀ x ∈ h, x < v) := by
  intro v h hne
  have hq : (get_market_position v h).2
      = (h.countP (fun x => decide (x < v)) : ℚ) / (h.length : ℚ) := by
    simp [get_market_position, hne]
  have hlen : (0:ℚ) < (h.length : ℚ) := by
    have := List.length_pos.mpr hne
    exact_mod_cast this
  refine ⟨hq, ?_, ?_⟩
  · intro hall
    have h0 : h.countP (fun x => decide (x < v)) = 0 :=
      List.countP_eq_zero.mpr (fun b hb => by simpa using hall b hb)
    rw [hq, h0]
    simp
  · rw [hq, div_eq_one_iff_eq (ne_of_gt hlen), Nat.cast_inj, List.countP_eq_length]
    constructor
    · intro hall x hx
      simpa using hall x hx
    · intro hall x hx
      simpa using hall x hx

/-- C2 witness: current value 9 against history 10, 8. -/
theorem quantile_is_strict_cheaper_fraction_witness :
    ([(10:ℚ), 8] ≠ []) ∧
      ((get_market_position 9 [10, 8]).2
          = (List.countP (fun x => decide (x < 9)) [(10:ℚ), 8] : ℚ)
              / (List.length [(10:ℚ), 8] : ℚ) ∧
        ((∀ x ∈ [(10:ℚ), 8], ¬ x < 9) → (get_market_position 9 [10, 8]).2 = 0) ∧
        ((get_market_position 9 [10, 8]).2 = 1 ↔ ∀ x ∈ [(10:ℚ), 8], x < 9)) :=
  ⟨by decide, quantile_is_strict_cheaper_fraction 9 [10, 8] (by decide)⟩

/- ### C3 -/

/-- C3: with an empty history, `get_market_position` returns rank 1 and
quantile 0 (and, being a total function of its input, signals no
error). -/
theorem empty_history_best_ever (v : ℚ) : get_market_position v [] = (1, 0) := rfl

/- ### C4 -/

/-- C4: the window evaluator selects exactly the observations whose date
lies in the half-open interval from `currentDate - N days` (inclusive)
to `currentDate` (exclusive); for a positive window length an
observation dated exactly at the window start is included, and an
observation dated at the current date is always excluded from its own
history. -/
theorem window_selection_half_open :
    ∀ (series : List Obs) (curr : Date) (N : Nat),
      (∀ o : Obs, o ∈ windowObs series curr N ↔
          (o ∈ series ∧ Date.subDays N curr ≤ o.date ∧ o.date < curr)) ∧
      (0 < N → ∀ o : Obs, o ∈ series → o.date = Date.subDays N curr →
          o ∈ windowObs series curr N) ∧
      (∀ o : Obs, o.date = curr → o ∉ windowObs series curr N) := by
  intro series curr N
  have hmem : ∀ o : Obs, o ∈ windowObs series curr N ↔
      (o ∈ series ∧ Date.subDays N curr ≤ o.date ∧ o.date < curr) := by
    intro o
    simp [windowObs, List.mem_filter]
  refine ⟨hmem, ?_, ?_⟩
  · intro hN o hos hod
    refine (hmem o).mpr ⟨hos, ?_, ?_⟩
    · rw [hod]
      exact Date.le_refl _
    · rw [hod]
      exact Date.subDays_lt N hN curr
  · intro o hod hin
    rcases (hmem o).mp hin with ⟨-, -, hlt⟩
    rw [hod] at hlt
    exact Date.lt_irrefl curr hlt

/-- Series for the C4 witness: one observation exactly at the window
start, one at the current date. -/
def seriesEdge : List Obs := [⟨⟨2025, 6, 8⟩, 7⟩, ⟨⟨2025, 6, 15⟩, 9⟩]

/-- C4 witness: with a 7-day window ending 2025-06-15, the observation
dated 2025-06-08 (the window start) is selected and the observation
dated 2025-06-15 (the current date) is not. -/
theorem window_selection_half_open_witness :
    (⟨⟨2025, 6, 8⟩, 7⟩ : Obs) ∈ windowObs seriesEdge ⟨2025, 6, 15⟩ 7 ∧
    (⟨⟨2025, 6, 15⟩, 9⟩ : Obs) ∉ windowObs seriesEdge ⟨2025, 6, 15⟩ 7 :=
  ⟨(window_selection_half_open seriesEdge ⟨2025, 6, 15⟩ 7).2.1 (by decide)
      ⟨⟨2025, 6, 8⟩, 7⟩ (by decide) (by decide),
   (window_selection_half_open seriesEdge ⟨2025, 6, 15⟩ 7).2.2
      ⟨⟨2025, 6, 15⟩, 9⟩ (by decide)⟩

/- ### C5 -/

/-- The scenario series of the spec: observations (d-2, 10), (d-1, 8)
and (d, 9) with d = 2025-06-15. -/
def seriesScenar : List Obs :=
  [⟨⟨2025, 6, 13⟩, 10⟩, ⟨⟨2025, 6, 14⟩, 8⟩, ⟨⟨2025, 6, 15⟩, 9⟩]

/-- The scenario's current date d. -/
def dScenar : Date := ⟨2025, 6, 15⟩

/-- The scenario's 7-day window selects exactly the two prior values. -/
theorem hist_vals_scenar : hist_vals seriesScenar dScenar 7 = [10, 8] := by decide

/-- Position of the scenario's current value 9 against history 10, 8. -/
theorem get_market_position_scenar : get_market_position 9 [10, 8] = (2, 1/2) := by
  norm_num [get_market_position, List.insertionSort, List.orderedInsert, List.indexOf,
    List.findIdx, List.findIdx.go, List.countP, List.countP.go, Bool.cond_eq_ite,
    beq_iff_eq]
  decide

/-- The scenario window evaluates to rank 2, quantile 1/2 and no hit. -/
theorem evalWindow_scenar :
    evalWindow seriesScenar dScenar 9 ⟨7, Mode.rank, 1⟩ = some (false, 2, 1/2) := by
  simp only [evalWindow, hist_vals_scenar, get_market_position_scenar]
  norm_num
  intro h
  exact absurd h (by decide)

/-- C5: for every evaluated (non-empty) window, the hit flag is true in
rank mode exactly when the rank is at most the target and in quantile
mode exactly when the quantile is at most the target; in the spec's
scenario (series (d-2, 10), (d-1, 8), (d, 9), 7-day rank window,
threshold 1) the history is 10, 8, the position is rank 2 and quantile
1/2, and the window is not a hit. -/
theorem window_hit_rule :
    (∀ (data : List Obs) (curr : Date) (v : ℚ) (conf : WindowConf)
        (hit : Bool) (r : ℕ) (q : ℚ),
        evalWindow data curr v conf = some (hit, r, q) →
        (conf.mode = Mode.rank → (hit = true ↔ (r : ℚ) ≤ conf.target)) ∧
        (conf.mode = Mode.quantile → (hit = true ↔ q ≤ conf.target))) ∧
    hist_vals seriesScenar dScenar 7 = [10, 8] ∧
    evalWindow seriesScenar dScenar 9 ⟨7, Mode.rank, 1⟩ = some (false, 2, 1/2) := by
  refine ⟨?_, hist_vals_scenar, evalWindow_scenar⟩
  intro data curr v conf hit r q heq
  obtain ⟨days, mode, target⟩ := conf
  cases mode
  · rw [evalWindow] at heq
    by_cases hemp : hist_vals data curr days = []
    · rw [if_pos hemp] at heq
      simp at heq
    · rw [if_neg hemp] at heq
      simp only [Option.some.injEq, Prod.mk.injEq] at heq
      obtain ⟨hhit, hpair⟩ := heq
      have hr : (get_market_position v (hist_vals data curr days)).1 = r :=
        congrArg Prod.fst hpair
      refine ⟨fun _ => ?_, fun hmode => Mode.noConfusion hmode⟩
      rw [← hhit, ← hr]
      simp
  · rw [evalWindow] at heq
    by_cases hemp : hist_vals data curr days = []
    · rw [if_pos hemp] at heq
      simp at heq
    · rw [if_neg hemp] at heq
      simp only [Option.some.injEq, Prod.mk.injEq] at heq
      obtain ⟨hhit, hpair⟩ := heq
      have hq : (get_market_position v (hist_vals data curr days)).2 = q :=
        congrArg Prod.snd hpair
      refine ⟨fun hmode => Mode.noConfusion hmode, fun _ => ?_⟩
      rw [← hhit, ← hq]
      simp

/-- C5 witness: the scenario window, evaluated through the general rule:
the rank-mode hit flag false matches rank 2 exceeding target 1. -/
theorem window_hit_rule_witness :
    (false = true ↔ ((2 : ℕ) : ℚ) ≤ (1 : ℚ)) :=
  (window_hit_rule.1 seriesScenar dScenar 9 ⟨7, Mode.rank, 1⟩ false 2 (1/2)
    evalWindow_scenar).1 rfl

/- ### C6 -/

/-- C6: a window whose selected history is empty contributes neither a
result nor a hit, and the remaining windows evaluate as if it were not
configured at all (the loop continues silently). -/
theorem empty_window_skipped :
    ∀ (data : List Obs) (curr : Date) (v : ℚ) (c : WindowConf)
      (pre post : List WindowConf),
      hist_vals data curr c.days = [] →
      evaluateWindows data curr v (pre ++ c :: post)
        = evaluateWindows data curr v (pre ++ post) := by
  intro data curr v c pre post hemp
  unfold evaluateWindows
  rw [List.filterMap_append, List.filterMap_append]
  congr 1
  rw [List.filterMap_cons]
  have hnone : evalWindow data curr v c = none := by
    rw [evalWindow, if_pos hemp]
  simp [hnone]

/-- Series for the C6 witness: one stale observation and the current
one, so the 7-day window is empty while the 90-day window is not. -/
def seriesStale : List Obs := [⟨⟨2025, 5, 1⟩, 10⟩, ⟨⟨2025, 6, 15⟩, 9⟩]

/-- C6 witness: the empty 7-day rank window drops out of the evaluation
while the following 90-day window is still evaluated. -/
theorem empty_window_skipped_witness :
    hist_vals seriesStale ⟨2025, 6, 15⟩ (7 : Nat) = [] ∧
    evaluateWindows seriesStale ⟨2025, 6, 15⟩ 9
        ([] ++ (⟨7, Mode.rank, 1⟩ : WindowConf) :: [⟨90, Mode.quantile, 15/100⟩])
      = evaluateWindows seriesStale ⟨2025, 6, 15⟩ 9 ([] ++ [⟨90, Mode.quantile, 15/100⟩]) :=
  ⟨by decide,
   empty_window_skipped seriesStale ⟨2025, 6, 15⟩ 9 ⟨7, Mode.rank, 1⟩ []
     [⟨90, Mode.quantile, 15/100⟩] (by decide)⟩

/- ### C7 -/

/-- Series for the C7 counterexample: value 0 on 2024-01-01 and value 90
one week later. -/
def poolZero : List Obs := [⟨⟨2024, 1, 1⟩, 0⟩, ⟨⟨2024, 1, 8⟩, 90⟩]

/-- C7 counterexample: with current date 2025-01-01, the one-year-back
anchor construction succeeds and both anchor dates occur as keys of the
lookup, yet no sample is recorded for that offset — the division by the
zero anchor value raises ZeroDivisionError, the bare except swallows
it, and the offset is dropped — contradicting the claimed
"records a sample exactly when both dates occur as keys". -/
theorem seasonal_keys_present_but_no_sample :
    Date.replaceYear ⟨2025, 1, 1⟩ ((⟨2025, 1, 1⟩ : Date).year - (1 : Nat))
        = some ⟨2024, 1, 1⟩ ∧
    (date_val_map poolZero ⟨2024, 1, 1⟩).isSome = true ∧
    (date_val_map poolZero (Date.addDays 7 ⟨2024, 1, 1⟩)).isSome = true ∧
    seasonalSample poolZero ⟨2025, 1, 1⟩ 1 = none := by decide

/-- C7 (amended): a sample is recorded for an offset exactly when the
anchor construction succeeds, both pastStart and pastEnd = pastStart +
7 days occur as exact keys in the lookup, and the value at pastStart is
nonzero; the sample is (value(pastStart) - value(pastEnd)) /
value(pastStart); a warning is emitted exactly when at least one sample
was recorded and the samples' arithmetic mean strictly exceeds the
threshold, and zero samples yield no warning and no error. -/
theorem seasonal_detector_spec :
    ∀ (data : List Obs) (curr : Date),
      (∀ (k : Nat) (ps : Date) (vs ve : ℚ),
          curr.replaceYear (curr.year - k) = some ps →
          date_val_map data ps = some vs →
          date_val_map data (Date.addDays 7 ps) = some ve →
          vs ≠ 0 →
          seasonalSample data curr k = some ((vs - ve) / vs)) ∧
      (∀ k : Nat, seasonalSample data curr k = none ∨
          ∃ ps vs ve, curr.replaceYear (curr.year - k) = some ps ∧
            date_val_map data ps = some vs ∧
            date_val_map data (Date.addDays 7 ps) = some ve ∧ vs ≠ 0 ∧
            seasonalSample data curr k = some ((vs - ve) / vs)) ∧
      (seasonalDrops data curr = [] → check_seasonal data curr = none) ∧
      (seasonalDrops data curr ≠ [] →
        (SEASONAL_DROP_THRESHOLD <
              (seasonalDrops data curr).sum / ((seasonalDrops data curr).length : ℚ) →
          check_seasonal data curr =
            some ((seasonalDrops data curr).length,
              (seasonalDrops data curr).sum / ((seasonalDrops data curr).length : ℚ))) ∧
        (¬ SEASONAL_DROP_THRESHOLD <
              (seasonalDrops data curr).sum / ((seasonalDrops data curr).length : ℚ) →
          check_seasonal data curr = none)) := by
  intro data curr
  refine ⟨?_, ?_, ?_, ?_⟩
  · intro k ps vs ve hps hvs hve hvs0
    simp [seasonalSample, hps, hvs, hve, hvs0]
  · intro k
    rcases hrep : curr.replaceYear (curr.year - k) with _ | ps
    · left
      simp [seasonalSample, hrep]
    · rcases hvs : date_val_map data ps with _ | vs
      · left
        simp [seasonalSample, hrep, hvs]
      · rcases hve : date_val_map data (Date.addDays 7 ps) with _ | ve
        · left
          simp [seasonalSample, hrep, hvs, hve]
        · by_cases h0 : vs = 0
          · left
            simp [seasonalSample, hrep, hvs, hve, h0]
          · right
            refine ⟨ps, vs, ve, rfl, hvs, hve, h0,
              by simp [seasonalSample, hrep, hvs, hve, h0]⟩
  · intro h
    simp [check_seasonal, seasonalVerdict, h]
  · intro hne
    constructor
    · intro hgt
      simp only [check_seasonal, seasonalVerdict, if_neg hne]
      rw [if_pos hgt]
    · intro hle
      simp only [check_seasonal, seasonalVerdict, if_neg hne]
      rw [if_neg hle]

/-- Series for the C7 witness: the spec's seasonal test vector, value 100
on 2024-01-01 and value 90 one week later. -/
def poolDrop : List Obs := [⟨⟨2024, 1, 1⟩, 100⟩, ⟨⟨2024, 1, 8⟩, 90⟩]

/-- C7 witness: the one-year-back offset from 2025-01-01 records the
sample (100 - 90) / 100. -/
theorem seasonal_detector_spec_witness :
    seasonalSample poolDrop ⟨2025, 1, 1⟩ 1 = some ((100 - 90) / 100) :=
  (seasonal_detector_spec poolDrop ⟨2025, 1, 1⟩).1 1 ⟨2024, 1, 1⟩ 100 90
    (by decide) (by decide) (by decide) (by decide)

/- ### C8 -/

/-- C8: when constructing the same-period anchor for one offset fails
(for instance Feb 29 shifted to a non-leap year), that offset
contributes no sample and the detector's outcome is the one computed
from the remaining offsets alone; the failure aborts neither the
detector nor the cycle. -/
theorem anchor_failure_offset_skipped :
    ∀ (data : List Obs) (curr : Date) (k : Nat),
      k ∈ ([1, 2, 3] : List Nat) →
      curr.replaceYear (curr.year - k) = none →
      seasonalSample data curr k = none ∧
      check_seasonal data curr
        = seasonalVerdict
            ((([1, 2, 3] : List Nat).filter (fun j => decide (j ≠ k))).filterMap
              (seasonalSample data curr)) := by
  intro data curr k hk hrep
  have hnone : seasonalSample data curr k = none := by
    simp [seasonalSample, hrep]
  refine ⟨hnone, ?_⟩
  rw [check_seasonal, seasonalDrops]
  congr 1
  fin_cases hk <;> simp_all [List.filterMap_cons, List.filter_cons]

/-- Series for the C8 witness. -/
def poolLeap : List Obs := [⟨⟨2023, 3, 1⟩, 10⟩]

/-- C8 witness: current date Feb 29 2024; the one-year-back anchor
Feb 29 2023 does not exist, the offset is skipped, and the detector
evaluates the other offsets. -/
theorem anchor_failure_offset_skipped_witness :
    seasonalSample poolLeap ⟨2024, 2, 29⟩ 1 = none ∧
    check_seasonal poolLeap ⟨2024, 2, 29⟩
      = seasonalVerdict
          ((([1, 2, 3] : List Nat).filter (fun j => decide (j ≠ 1))).filterMap
            (seasonalSample poolLeap ⟨2024, 2, 29⟩)) :=
  anchor_failure_offset_skipped poolLeap ⟨2024, 2, 29⟩ 1 (by decide) (by decide)

/- ### C9 -/

/-- C9: the caller's history list is left unmodified: the state-passing
rendering of the analyzer returns exactly the result of
`get_market_position` together with the untouched input history (the
in-place sort happens on the freshly built concatenation only), so the
same history can be reused unchanged afterwards. -/
theorem history_values_unmodified :
    ∀ (current_val : ℚ) (history_values : List ℚ),
      get_market_position_tracked current_val history_values
        = (get_market_position current_val history_values, history_values) := by
  intro v h
  by_cases hne : h = [] <;>
    simp [get_market_position_tracked, get_market_position, hne]

/- ### C10 -/

/-- C10: a matched pastStart anchor whose stored value is 0 contributes
no sample for that offset — the ZeroDivisionError of the change
computation is caught by the bare except — and the detector, a total
function in this embedding, yields a defined outcome for every
input. -/
theorem zero_anchor_value_no_sample :
    ∀ (data : List Obs) (curr : Date) (k : Nat) (ps : Date),
      curr.replaceYear (curr.year - k) = some ps →
      date_val_map data ps = some 0 →
      seasonalSample data curr k = none := by
  intro data curr k ps hrep hzero
  rcases hve : date_val_map data (Date.addDays 7 ps) with _ | ve <;>
    simp [seasonalSample, hrep, hzero, hve]

/-- Series for the C10 witness. -/
def poolZeroOnly : List Obs := [⟨⟨2024, 1, 1⟩, 0⟩]

/-- C10 witness: anchor 2024-01-01 holds value 0, so the one-year-back
offset from 2025-01-01 contributes no sample. -/
theorem zero_anchor_value_no_sample_witness :
    seasonalSample poolZeroOnly ⟨2025, 1, 1⟩ 1 = none :=
  zero_anchor_value_no_sample poolZeroOnly ⟨2025, 1, 1⟩ 1 ⟨2024, 1, 1⟩
    (by decide) (by decide)
